import Mathlib

/-!
A shallow embedding of the hospital-records cleaning pipeline
(`src/cleaning.py`, with the duplicated helpers of `src/main.py`).

Cells are modelled exactly: the missing marker (NaN/NaT), numeric values
(exact rationals standing for the floats), text values, and parsed
timestamps (an integer ordinal, order-isomorphic to the timestamps the
claims exercise).  A table is a header list, a per-column storage kind
(the pandas dtype trichotomy the pipeline dispatches on), and a list of
rows.  Each numbered step of `clean_hospital_records` is translated as a
`Table → Table` function, and the whole pipeline as their composition;
a small heap model captures the `df = df_raw.copy()` discipline.
-/

/-- A table cell: the missing marker (NaN/NaT), a numeric value, a text
value, or a parsed timestamp. -/
inductive Cell where
  | missing : Cell
  | num : ℚ → Cell
  | text : String → Cell
  | date : ℤ → Cell
deriving DecidableEq

/-- The pandas storage-kind trichotomy the pipeline dispatches on:
`int64`/`float64` columns, `object`/`string` columns, `datetime64` columns. -/
inductive ColType where
  | numeric : ColType
  | text : ColType
  | temporal : ColType
deriving DecidableEq

/-- One record (positionally aligned across the columns). -/
abbrev Row := List Cell

/-- A data frame: column names, per-column storage kinds, and rows. -/
structure Table where
  names : List String
  ctypes : List ColType
  rows : List Row
deriving DecidableEq

instance : Inhabited Table := ⟨⟨[], [], []⟩⟩

/-- Python `\s` (the ASCII part): space, tab, newline, carriage return,
vertical tab, form feed. -/
def isWsChar (c : Char) : Bool :=
  c.toNat == 32 || c.toNat == 9 || c.toNat == 10 || c.toNat == 13 ||
    c.toNat == 11 || c.toNat == 12

/-- The regex class `[a-z0-9_]` of `clean_column_name`. -/
def isAllowedChar (c : Char) : Bool :=
  (97 ≤ c.toNat && c.toNat ≤ 122) || (48 ≤ c.toNat && c.toNat ≤ 57) ||
    c.toNat == 95

/-- Python `str.lower` (the ASCII part; non-ASCII letters are removed by the
final character filter either way). -/
def pyLower (c : Char) : Char :=
  if 65 ≤ c.toNat && c.toNat ≤ 90 then Char.ofNat (c.toNat + 32) else c

/-- Python `str.strip()`: drop whitespace from both ends. -/
def stripWs (l : List Char) : List Char :=
  ((l.dropWhile isWsChar).reverse.dropWhile isWsChar).reverse

/-- `re.sub(r"\s+", "_", ·)`: each maximal whitespace run becomes one `_`.
The flag records whether the previous character was part of a run. -/
def subWsAux : Bool → List Char → List Char
  | _, [] => []
  | prevWs, c :: cs =>
    if isWsChar c then
      if prevWs then subWsAux true cs else '_' :: subWsAux true cs
    else c :: subWsAux false cs

/-- `clean_column_name`, character-list level: strip, lower, collapse
whitespace runs to `_`, delete everything outside `[a-z0-9_]`. -/
def cleanColChars (l : List Char) : List Char :=
  (subWsAux false ((stripWs l).map pyLower)).filter isAllowedChar

/-- `clean_column_name` from `src/cleaning.py` (identical in `src/main.py`). -/
def clean_column_name (s : String) : String :=
  String.mk (cleanColChars s.data)

/-- Digit value of a digit-character list, most significant first. -/
def digitsVal (cs : List Char) : ℕ :=
  cs.foldl (fun a c => 10 * a + (c.toNat - 48)) 0

/-- `pd.to_numeric(·, errors="coerce")` on one string: optional surrounding
whitespace and sign, then an integer part and an optional fractional part,
at least one digit in all.  (Exponent notation and the infinity words are
not modelled; no claim exercises them.) -/
def pdToNumericChars (cs0 : List Char) : Option ℚ :=
  let cs := stripWs cs0
  let sgn : ℚ × List Char :=
    match cs with
    | '-' :: t => (-1, t)
    | '+' :: t => (1, t)
    | _ => (1, cs)
  let intPart := sgn.2.takeWhile Char.isDigit
  let rest := sgn.2.dropWhile Char.isDigit
  match rest with
  | [] => if intPart.isEmpty then none else some (sgn.1 * digitsVal intPart)
  | '.' :: frac =>
    if frac.all Char.isDigit && !(intPart.isEmpty && frac.isEmpty) then
      some (sgn.1 * ((digitsVal intPart : ℚ) +
        (digitsVal frac : ℚ) / (10 ^ frac.length)))
    else none
  | _ => none

/-- `pd.to_numeric(·, errors="coerce")` on a string. -/
def pdToNumeric (s : String) : Option ℚ :=
  pdToNumericChars s.data

/-- `pd.to_numeric(·, errors="coerce")` on one cell: numbers pass through,
text is parsed (failures become missing), missing stays missing.  A
timestamp cell can never reach a `to_numeric` call in this pipeline
(the age step runs before date parsing, and the coercion step skips
`datetime64` columns), so its image is irrelevant; we send it to missing. -/
def toNumericCell (c : Cell) : Cell :=
  match c with
  | .num q => .num q
  | .text s => (pdToNumeric s).elim Cell.missing Cell.num
  | .date _ => .missing
  | .missing => .missing

/-- ISO `YYYY-MM-DD` parse, as an order-preserving ordinal
`y*10000 + m*100 + d`.  `pd.to_datetime(errors="coerce")` accepts more
formats; the claims only exercise ISO dates and unparseable text. -/
def dateParseChars (cs : List Char) : Option ℤ :=
  match cs with
  | [y1, y2, y3, y4, '-', m1, m2, '-', d1, d2] =>
    if (y1.isDigit && y2.isDigit && y3.isDigit && y4.isDigit &&
        m1.isDigit && m2.isDigit && d1.isDigit && d2.isDigit) then
      let y := digitsVal [y1, y2, y3, y4]
      let m := digitsVal [m1, m2]
      let d := digitsVal [d1, d2]
      if 1 ≤ m && m ≤ 12 && 1 ≤ d && d ≤ 31 then
        some ((y : ℤ) * 10000 + m * 100 + d)
      else none
    else none
  | _ => none

/-- `pd.to_datetime(·, errors="coerce")` on one cell.  Timestamps pass
through, text is parsed (failures become NaT), missing stays missing;
a numeric cell is read as an epoch offset (truncated), mirroring pandas'
numeric-input convention up to the choice of ordinal. -/
def pdToDatetimeCell (c : Cell) : Cell :=
  match c with
  | .date d => .date d
  | .text s => (dateParseChars s.data).elim Cell.missing Cell.date
  | .num q => .date ⌊q⌋
  | .missing => .missing

/-- The string Python's `str(x)` hands `re.sub` inside `clean_phone`.  For
text cells this is exact; the renderings of the other cell kinds contain
no digit-count-preserving guarantees and are only best-effort (no claim
depends on them). -/
def cellStr (c : Cell) : String :=
  match c with
  | .text s => s
  | .num q => toString q
  | .date d => toString d
  | .missing => ""

/-- `clean_phone` from `src/cleaning.py` (identical in `src/main.py`):
missing stays missing; otherwise keep only digits and require the digit
count to lie in `[10, 15]`, else missing. -/
def clean_phone (c : Cell) : Cell :=
  match c with
  | .missing => .missing
  | c =>
    let digits := (cellStr c).data.filter Char.isDigit
    if digits.length < 10 || 15 < digits.length then .missing
    else .text (String.mk digits)

/-- Digit count of a string after stripping non-digits (the quantity
`clean_phone` validates). -/
def digitCountStr (s : String) : ℕ :=
  (s.data.filter Char.isDigit).length

/-- The output shape the phone normalizer guarantees: missing, or a pure
digit string of length 10..15. -/
def phoneDigitOK (c : Cell) : Bool :=
  match c with
  | .missing => true
  | .text s => s.data.all Char.isDigit &&
      (10 ≤ s.data.length && s.data.length ≤ 15)
  | _ => false

/-- Non-missing detection (`notna`). -/
def cellNotNA (c : Cell) : Bool :=
  match c with
  | .missing => false
  | _ => true

/-- Missing detection (`isna`). -/
def isMissing (c : Cell) : Bool :=
  match c with
  | .missing => true
  | _ => false

/-- The numeric values of a series, missing cells dropped (`dropna`). -/
def numsOf (s : List Cell) : List ℚ :=
  s.filterMap (fun c => match c with | .num q => some q | _ => none)

/-- The sorted view of the non-missing values (what `np.sort` produces;
for rationals the sorted list is unique, so any correct sort is faithful). -/
def sortQ (xs : List ℚ) : List ℚ :=
  xs.insertionSort (· ≤ ·)

/-- `Series.quantile(p)` with the default linear interpolation:
on the sorted non-missing values `s`, the value at rank `h = (n-1)·p` is
`s[⌊h⌋] + (h - ⌊h⌋)·(s[⌊h⌋+1] - s[⌊h⌋])`; `none` on an empty series (NaN). -/
def quantile (xs : List ℚ) (p : ℚ) : Option ℚ :=
  let s := sortQ xs
  if s.length = 0 then none
  else
    let hq : ℚ := ((s.length - 1 : ℕ) : ℚ) * p
    let k := (⌊hq⌋).toNat
    let a := s.getD k 0
    let b := s.getD (k + 1) a
    some (a + (hq - ⌊hq⌋) * (b - a))

/-- `Series.median()` (pandas' median is the 0.5 quantile with linear
interpolation: the middle value, or the mean of the two middle values). -/
def median (xs : List ℚ) : Option ℚ :=
  quantile xs (1/2)

/-- `Series.clip(lower, upper)` on one cell: NaN passes through, a number
is forced into the fences. -/
def clipCell (lower upper : ℚ) (c : Cell) : Cell :=
  match c with
  | .num q => .num (if q < lower then lower else if upper < q then upper else q)
  | c => c

/-- `cap_outliers_iqr` from `src/cleaning.py` (identical in `src/main.py`):
below 5 non-missing values, or when the IQR is zero or undefined, the
series is returned unchanged; otherwise every value is clipped to
`[q1 - 1.5·iqr, q3 + 1.5·iqr]`. -/
def cap_outliers_iqr (s : List Cell) : List Cell :=
  if (numsOf s).length < 5 then s
  else
    match quantile (numsOf s) (1/4), quantile (numsOf s) (3/4) with
    | some q1, some q3 =>
      if q3 - q1 = 0 then s
      else s.map (clipCell (q1 - 3/2 * (q3 - q1)) (q3 + 3/2 * (q3 - q1)))
    | _, _ => s

/-- `fillna(v)`: replace missing cells by `v`. -/
def fillNA (v : Cell) (s : List Cell) : List Cell :=
  s.map (fun c => if isMissing c then v else c)

/-- Step 11 on one numeric column: `df[col].fillna(df[col].median())`.
When the column is entirely missing the median is NaN and `fillna(NaN)`
changes nothing. -/
def imputeNumericCol (s : List Cell) : List Cell :=
  match median (numsOf s) with
  | some m => fillNA (.num m) s
  | none => s

/-- Step 11 on one text column: `df[col].fillna("unknown")`. -/
def imputeTextCol (s : List Cell) : List Cell :=
  fillNA (.text "unknown") s

/-- Step 11 dispatched on the column's storage kind.  The source runs two
loops (all `int64`/`float64` columns, then all `string`/`object` columns);
the loops touch disjoint columns, so per-column dispatch is the same
transformation.  `datetime64` columns appear in neither loop. -/
def imputeColByType (ty : ColType) (s : List Cell) : List Cell :=
  match ty with
  | .numeric => imputeNumericCol s
  | .text => imputeTextCol s
  | .temporal => s

/-- `df.drop_duplicates()` kernel: walk the rows, keeping a row only when
no identical row was kept before (pandas keeps first occurrences; its
`duplicated` treats NaN as equal to NaN, as does our cell equality). -/
def dropDupGo (seen : List Row) : List Row → List Row
  | [] => []
  | r :: rs => if r ∈ seen then dropDupGo seen rs
               else r :: dropDupGo (r :: seen) rs

/-- Step 3: `df.drop_duplicates().reset_index(drop=True)` — the surviving
rows in original order (a list is contiguously indexed by construction,
which is what `reset_index(drop=True)` re-establishes). -/
def dropDuplicates (rows : List Row) : List Row :=
  dropDupGo [] rows

/-- The deduplication contract in the words of the claim: scanning with the
list of ALL previously seen rows as the prefix, a row survives exactly when
it is not cell-wise identical to any earlier row. -/
def dedupSpecAux (pre : List Row) : List Row → List Row
  | [] => []
  | r :: rs => if r ∈ pre then dedupSpecAux (pre ++ [r]) rs
               else r :: dedupSpecAux (pre ++ [r]) rs

/-- `discharge < admission` on cells: true only when both timestamps are
present (any comparison with NaT is False in pandas). -/
def ltCell (d a : Cell) : Bool :=
  match d, a with
  | .date dd, .date da => decide (dd < da)
  | _, _ => false

/-- The admission/discharge logical check of step 7: the boolean mask
`bad = df["discharge_date"] < df["admission_date"]` is computed once, then
both columns are set to NaT where the mask holds
(`df.loc[bad, ["admission_date", "discharge_date"]] = pd.NaT`). -/
def dischargeCheck (a d : List Cell) : List Cell × List Cell :=
  let bad := List.zipWith (fun dv av => ltCell dv av) d a
  (List.zipWith (fun b x => if b then Cell.missing else x) bad a,
   List.zipWith (fun b x => if b then Cell.missing else x) bad d)

/-- Step 9's commit test: `pd.to_numeric(col, errors="coerce").notna().mean()
> 0.70`.  The mean of the boolean mask is `#non-NaN / #all-cells`; on an
empty column the mean is NaN and the comparison is False, matching `0/0 = 0`
for rational division. -/
def coerceCommit (cells : List Cell) : Bool :=
  decide ((7 : ℚ) / 10 <
    ((cells.map toNumericCell).countP cellNotNA : ℚ) / (cells.length : ℚ))

/-- Step 9 on one text column: commit the numeric coercion when the commit
test passes, else leave the column unchanged. -/
def convertNumericColumn (cells : List Cell) : List Cell :=
  if coerceCommit cells then cells.map toNumericCell else cells

/-- Claim C1's version of the commit test, in the claim's words: the
fraction of successfully-coerced cells among the column's ORIGINALLY
NON-MISSING cells exceeds 0.70. -/
def coerceCommitClaimC1 (cells : List Cell) : Bool :=
  decide ((7 : ℚ) / 10 <
    ((cells.map toNumericCell).countP cellNotNA : ℚ) /
      (cells.countP cellNotNA : ℚ))

/-- Step 9 as claim C1 states it. -/
def convertNumericColumnClaimC1 (cells : List Cell) : List Cell :=
  if coerceCommitClaimC1 cells then cells.map toNumericCell else cells

/-- List-of-characters prefix test (building block for Python's `in`). -/
def isPrefixList : List Char → List Char → Bool
  | [], _ => true
  | _ :: _, [] => false
  | a :: as, b :: bs => a == b && isPrefixList as bs

/-- Substring occurrence test (Python's `k in c` on strings). -/
def isSubChars (pat : List Char) : List Char → Bool
  | [] => isPrefixList pat []
  | c :: rest => isPrefixList pat (c :: rest) || isSubChars pat rest

/-- Python `k in c` for strings. -/
def containsSub (pat s : String) : Bool :=
  isSubChars pat.data s.data

/-- `any(k in c for k in keywords)`. -/
def containsAny (s : String) (keywords : List String) : Bool :=
  keywords.any (fun k => containsSub k s)

/-- The `empty_like` vocabulary of step 2. -/
def emptyLike : List String :=
  ["n/a", "na", "none", "null", "unknown", "?", "??", "-", "", " "]

/-- Step 2 on one cell: `df.replace(empty_like, np.nan)` exact-matches
string cells against the vocabulary. -/
def replaceEmptyLike (c : Cell) : Cell :=
  match c with
  | .text s => if emptyLike.contains s then .missing else c
  | c => c

/-- Step 4 on one cell: `astype("string").str.strip()` strips non-missing
text, missing stays missing. -/
def trimCell (c : Cell) : Cell :=
  match c with
  | .text s => .text (String.mk (stripWs s.data))
  | c => c

/-- Python `str.lower` on a string. -/
def pyLowerStr (s : String) : String :=
  String.mk (s.data.map pyLower)

/-- The fixed `gender_map` vocabulary. -/
def genderMapLookup (s : String) : Option String :=
  if s = "m" || s = "male" || s = "man" then some "male"
  else if s = "f" || s = "female" || s = "woman" then some "female"
  else none

/-- Step 5 on one cell: `astype("string").str.lower().map(gender_map)` —
any value outside the vocabulary (and any non-text cell, whose string form
is never in the vocabulary) becomes missing. -/
def genderCell (c : Cell) : Cell :=
  match c with
  | .text s => ((genderMapLookup (pyLowerStr s)).elim Cell.missing Cell.text)
  | _ => .missing

/-- Step 6's range invalidation:
`df.loc[(df["age"] < 0) | (df["age"] > 120), "age"] = np.nan` (NaN
comparisons are False, so missing cells are untouched). -/
def invalidateAge (c : Cell) : Cell :=
  match c with
  | .num q => if q < 0 || 120 < q then .missing else .num q
  | c => c

/-- Step 6 on the `age` column: numeric coercion, then range invalidation
(the two consecutive statements of the source). -/
def ageCleanColumn (cells : List Cell) : List Cell :=
  (cells.map toNumericCell).map invalidateAge

/-- The range check claim C4 asserts for every post-step cell. -/
def ageOK (c : Cell) : Bool :=
  match c with
  | .missing => true
  | .num q => decide (0 ≤ q) && decide (q ≤ 120)
  | _ => false

/-- Column `j` of the table, as a series. -/
def Table.getCol (t : Table) (j : ℕ) : List Cell :=
  t.rows.map (fun r => r.getD j Cell.missing)

/-- Write a series back as column `j` (`df[col] = vals`). -/
def Table.setCol (t : Table) (j : ℕ) (vals : List Cell) : Table :=
  { t with rows := List.zipWith (fun r v => r.set j v) t.rows vals }

/-- Record a new storage kind for column `j` (a dtype change). -/
def Table.setCType (t : Table) (j : ℕ) (ty : ColType) : Table :=
  { t with ctypes := t.ctypes.set j ty }

/-- Transform column `j` by a whole-series function. -/
def Table.applyCol (t : Table) (j : ℕ) (f : List Cell → List Cell) : Table :=
  t.setCol j (f (t.getCol j))

/-- Name of column `j`. -/
def Table.colName (t : Table) (j : ℕ) : String :=
  t.names.getD j ""

/-- Storage kind of column `j`. -/
def Table.colType (t : Table) (j : ℕ) : ColType :=
  t.ctypes.getD j ColType.text

/-- Index of the first column with the given name (`df[name]` under the
usual unique-header assumption). -/
def Table.colIdx (t : Table) (name : String) : ℕ :=
  t.names.findIdx (fun n => n == name)

/-- Fold a per-column-index transformation over all columns
(`for col in df.columns: ...`). -/
def Table.foldCols (t : Table) (f : Table → ℕ → Table) : Table :=
  (List.range t.names.length).foldl f t

/-- Step 1: `df.columns = [clean_column_name(c) for c in df.columns]`. -/
def stepRename (t : Table) : Table :=
  { t with names := t.names.map clean_column_name }

/-- Step 2: `df = df.replace(empty_like, np.nan)`. -/
def stepEmpty (t : Table) : Table :=
  { t with rows := t.rows.map (fun r => r.map replaceEmptyLike) }

/-- Step 3: `df = df.drop_duplicates().reset_index(drop=True)`. -/
def stepDedup (t : Table) : Table :=
  { t with rows := dropDuplicates t.rows }

/-- Step 4: trim every `object` column. -/
def stepTrim (t : Table) : Table :=
  t.foldCols (fun acc j =>
    if acc.colType j = ColType.text then acc.applyCol j (List.map trimCell)
    else acc)

/-- Step 5: locate the first of `gender`, `sex` (that priority), and map it
through the vocabulary; the mapped column is an `object`/`string` column. -/
def stepGender (t : Table) : Table :=
  if t.names.contains "gender" then
    ((t.applyCol (t.colIdx "gender") (List.map genderCell)).setCType
      (t.colIdx "gender") ColType.text)
  else if t.names.contains "sex" then
    ((t.applyCol (t.colIdx "sex") (List.map genderCell)).setCType
      (t.colIdx "sex") ColType.text)
  else t

/-- Step 6: clean a column literally named `age`, making it numeric. -/
def stepAge (t : Table) : Table :=
  if t.names.contains "age" then
    ((t.applyCol (t.colIdx "age") ageCleanColumn).setCType
      (t.colIdx "age") ColType.numeric)
  else t

/-- The date-column keywords of step 7. -/
def dateKeywords : List String := ["date", "admission", "discharge", "dob"]

/-- Step 7: parse every column whose name contains a date keyword, making
it `datetime64`. -/
def stepDates (t : Table) : Table :=
  t.foldCols (fun acc j =>
    if containsAny (acc.colName j) dateKeywords then
      (acc.applyCol j (List.map pdToDatetimeCell)).setCType j ColType.temporal
    else acc)

/-- Step 7's cross-field rule, when both named columns exist. -/
def stepCross (t : Table) : Table :=
  if t.names.contains "admission_date" && t.names.contains "discharge_date" then
    let ja := t.colIdx "admission_date"
    let jd := t.colIdx "discharge_date"
    let p := dischargeCheck (t.getCol ja) (t.getCol jd)
    (t.setCol ja p.1).setCol jd p.2
  else t

/-- The phone-column keywords of step 8. -/
def phoneKeywords : List String := ["phone", "mobile", "contact"]

/-- Step 8: `df[c] = df[c].apply(clean_phone)` for every column whose name
contains a phone keyword; `apply` yields an `object` column. -/
def stepPhones (t : Table) : Table :=
  t.foldCols (fun acc j =>
    if containsAny (acc.colName j) phoneKeywords then
      (acc.applyCol j (List.map clean_phone)).setCType j ColType.text
    else acc)

/-- Step 9: numeric coercion of text columns behind the 0.70 commit test;
a committed column becomes `float64`. -/
def stepCoerce (t : Table) : Table :=
  t.foldCols (fun acc j =>
    if acc.colType j = ColType.text then
      if coerceCommit (acc.getCol j) then
        (acc.applyCol j convertNumericColumn).setCType j ColType.numeric
      else acc.applyCol j convertNumericColumn
    else acc)

/-- Step 10: cap outliers of every numeric column whose name does not
contain `id`. -/
def stepCap (t : Table) : Table :=
  t.foldCols (fun acc j =>
    if acc.colType j = ColType.numeric && !(containsSub "id" (acc.colName j))
    then acc.applyCol j cap_outliers_iqr
    else acc)

/-- Step 11: imputation, dispatched on the storage kind. -/
def stepImpute (t : Table) : Table :=
  t.foldCols (fun acc j => acc.applyCol j (imputeColByType (acc.colType j)))

/-- The eleven transformation steps of `clean_hospital_records`, in source
order. -/
def pipelineSteps : List (Table → Table) :=
  [stepRename, stepEmpty, stepDedup, stepTrim, stepGender, stepAge,
   stepDates, stepCross, stepPhones, stepCoerce, stepCap, stepImpute]

/-- The cleaning transform of `clean_hospital_records` on one table. -/
def cleanTable (t : Table) : Table :=
  pipelineSteps.foldl (fun a f => f a) t

/-- Missing count of one series. -/
def missingCount (s : List Cell) : ℕ :=
  s.countP isMissing

/-- Missing count of column `j`. -/
def Table.colMissing (t : Table) (j : ℕ) : ℕ :=
  missingCount (t.getCol j)

/-- Non-missing count of column `j`. -/
def Table.colNonMissing (t : Table) (j : ℕ) : ℕ :=
  (t.getCol j).countP cellNotNA

/-- One row of a missing-value report. -/
structure MissEntry where
  name : String
  mcount : ℕ
  pct : Option ℚ
deriving DecidableEq

/-- Rational division as the fallible operation it is in the source:
`0/0` (the only division the zero-row table triggers) is NaN, not 0. -/
def ratDiv (a b : ℚ) : Option ℚ :=
  if b = 0 then none else some (a / b)

/-- `Series.round(2)` idealised over ℚ: round half to even at two
decimals (numpy's rounding mode). -/
def round2 (q : ℚ) : ℚ :=
  (if q * 100 - ⌊q * 100⌋ < 1/2 then (⌊q * 100⌋ : ℚ)
   else if 1/2 < q * 100 - ⌊q * 100⌋ then (⌊q * 100⌋ + 1 : ℚ)
   else if (2 : ℤ) ∣ ⌊q * 100⌋ then (⌊q * 100⌋ : ℚ)
   else (⌊q * 100⌋ + 1 : ℚ)) / 100

/-- The unsorted rows of `missing_report` as written in `src/cleaning.py`:
`miss = df.isna().sum()`, `pct = (miss / len(df)) * 100`, percentage
rounded to two decimals. -/
def missingEntries (t : Table) : List MissEntry :=
  (List.range t.names.length).map (fun j =>
    { name := t.colName j
      mcount := t.colMissing j
      pct := (ratDiv (t.colMissing j : ℚ) (t.rows.length : ℚ)).map
        (fun x => round2 (x * 100)) })

/-- The unsorted rows of the `missing_report` duplicated in `src/main.py`
(same counts, percentage not rounded). -/
def missingEntriesMain (t : Table) : List MissEntry :=
  (List.range t.names.length).map (fun j =>
    { name := t.colName j
      mcount := t.colMissing j
      pct := (ratDiv (t.colMissing j : ℚ) (t.rows.length : ℚ)).map
        (fun x => x * 100) })

/-- Descending order on percentages; NaN sorts last, as in pandas. -/
def pctGeB (a b : Option ℚ) : Bool :=
  match a, b with
  | some x, some y => decide (y ≤ x)
  | some _, none => true
  | none, some _ => false
  | none, none => true

/-- `missing_report` of `src/cleaning.py`: the per-column rows sorted by
percentage, descending. -/
def missing_report (t : Table) : List MissEntry :=
  (missingEntries t).insertionSort (fun a b => pctGeB a.pct b.pct = true)

/-- `missing_report` of `src/main.py`: sorted by raw count, descending. -/
def missingReportMain (t : Table) : List MissEntry :=
  (missingEntriesMain t).insertionSort (fun a b => b.mcount ≤ a.mcount)

/-- `clean_hospital_records`: report on the (copied) input, clean, report
again. -/
def clean_hospital_records (t : Table) :
    Table × List MissEntry × List MissEntry :=
  (cleanTable t, missing_report t, missing_report (cleanTable t))

/-- A heap of data frames; a reference is an index, `h.length` is the next
fresh one.  This captures which object each Python statement mutates. -/
abbrev Heap := List Table

/-- The body of `clean_hospital_records` at the heap level:
`df = df_raw.copy()` allocates a fresh frame holding a copy of the
argument's value, and every subsequent statement reads and writes only
that fresh frame.  Returns the final heap and the reference to `df`. -/
def cleanHeap (h : Heap) (r : ℕ) : Heap × ℕ :=
  let dfRef := h.length
  let h1 := h ++ [h.getD r default]
  (pipelineSteps.foldl
    (fun hh f => hh.set dfRef (f (hh.getD dfRef default))) h1, dfRef)

/-- A one-column phone table: a valid 10-digit number with a leading zero. -/
def exTablePhone : Table :=
  ⟨["phone"], [ColType.text], [[Cell.text "0123456789"]]⟩

/-- A one-column date table: one parseable date, one unparseable string. -/
def exTableDates : Table :=
  ⟨["visit_date"], [ColType.text], [[Cell.text "2020-01-02"], [Cell.text "zzz"]]⟩

/-- A one-column two-row table with one missing cell. -/
def exTableOne : Table :=
  ⟨["a"], [ColType.text], [[Cell.missing], [Cell.text "x"]]⟩

/-- A one-column zero-row table. -/
def exTableZero : Table :=
  ⟨["a"], [ColType.text], []⟩

/-- The report row `missingReportMain` produces for `exTableOne`. -/
def exEntryOne : MissEntry := ⟨"a", 1, some 50⟩

/-- The report row `missingReportMain` produces for `exTableZero`. -/
def exEntryZero : MissEntry := ⟨"a", 0, none⟩

theorem dropWhile_eq_self_of_not {α : Type} {p : α → Bool} :
    ∀ l : List α, (∀ c ∈ l, p c = false) → l.dropWhile p = l := by
  intro l h
  cases l with
  | nil => rfl
  | cons a t => simp [List.dropWhile_cons, h a (by simp)]

theorem map_eq_self_of_fix {α : Type} {f : α → α} :
    ∀ l : List α, (∀ c ∈ l, f c = c) → l.map f = l := by
  intro l h
  induction l with
  | nil => rfl
  | cons a t ih =>
    simp only [List.map_cons]
    rw [h a (by simp), ih (fun c hc => h c (by simp [hc]))]

theorem filter_eq_self_of_all {α : Type} {p : α → Bool} :
    ∀ l : List α, (∀ c ∈ l, p c = true) → l.filter p = l := by
  intro l h
  induction l with
  | nil => rfl
  | cons a t ih =>
    simp only [List.filter_cons, h a (by simp)]
    simp [ih (fun c hc => h c (by simp [hc]))]

theorem allowed_not_ws {c : Char} (h : isAllowedChar c = true) :
    isWsChar c = false := by
  simp only [isAllowedChar, Bool.or_eq_true, Bool.and_eq_true,
    decide_eq_true_eq, beq_iff_eq] at h
  simp only [isWsChar, Bool.or_eq_false_iff, beq_eq_false_iff_ne, ne_eq]
  omega

theorem allowed_lower_fix {c : Char} (h : isAllowedChar c = true) :
    pyLower c = c := by
  simp only [isAllowedChar, Bool.or_eq_true, Bool.and_eq_true,
    decide_eq_true_eq, beq_iff_eq] at h
  have hcond : (65 ≤ c.toNat && c.toNat ≤ 90) = false := by
    simp only [Bool.and_eq_false_iff, decide_eq_false_iff_not, not_le]
    omega
  simp [pyLower, hcond]

theorem subWsAux_eq_self_of_not_ws :
    ∀ (l : List Char) (b : Bool), (∀ c ∈ l, isWsChar c = false) →
      subWsAux b l = l := by
  intro l
  induction l with
  | nil => intro b _; rfl
  | cons a t ih =>
    intro b h
    simp only [subWsAux, h a (by simp)]
    simp [ih false (fun c hc => h c (by simp [hc]))]

theorem cleanColChars_mem_allowed {l : List Char} {c : Char}
    (h : c ∈ cleanColChars l) : isAllowedChar c = true :=
  (List.mem_filter.mp h).2

theorem cleanColChars_idem (l : List Char) :
    cleanColChars (cleanColChars l) = cleanColChars l := by
  have hall : ∀ c ∈ cleanColChars l, isAllowedChar c = true :=
    fun c hc => cleanColChars_mem_allowed hc
  have hnw : ∀ c ∈ cleanColChars l, isWsChar c = false :=
    fun c hc => allowed_not_ws (hall c hc)
  have h1 : stripWs (cleanColChars l) = cleanColChars l := by
    unfold stripWs
    rw [dropWhile_eq_self_of_not _ hnw]
    rw [dropWhile_eq_self_of_not _ (fun c hc => hnw c (List.mem_reverse.mp hc))]
    exact List.reverse_reverse _
  have h2 : (cleanColChars l).map pyLower = cleanColChars l :=
    map_eq_self_of_fix _ (fun c hc => allowed_lower_fix (hall c hc))
  have h3 : subWsAux false (cleanColChars l) = cleanColChars l :=
    subWsAux_eq_self_of_not_ws _ false hnw
  show (subWsAux false ((stripWs (cleanColChars l)).map pyLower)).filter
      isAllowedChar = cleanColChars l
  rw [h1, h2, h3]
  exact filter_eq_self_of_all _ hall

/-- Claim C8: the column-name normalizer is idempotent, and every output
character lies in `[a-z0-9_]`. -/
theorem clean_column_name_idempotent (s : String) :
    clean_column_name (clean_column_name s) = clean_column_name s ∧
      (clean_column_name s).data.all isAllowedChar = true := by
  constructor
  · show String.mk (cleanColChars (cleanColChars s.data)) =
      String.mk (cleanColChars s.data)
    rw [cleanColChars_idem]
  · exact List.all_eq_true.mpr (fun c hc => cleanColChars_mem_allowed hc)

theorem ageOK_invalidate_num (q : ℚ) :
    ageOK (invalidateAge (Cell.num q)) = true := by
  simp only [invalidateAge]
  by_cases h1 : q < 0
  · simp [h1, ageOK]
  · by_cases h2 : 120 < q
    · simp [h1, h2, ageOK]
    · simp [h1, h2, ageOK]
      exact ⟨le_of_not_lt h1, le_of_not_lt h2⟩

theorem ageOK_cell (c : Cell) :
    ageOK (invalidateAge (toNumericCell c)) = true := by
  cases c with
  | missing => rfl
  | date d => rfl
  | num q => exact ageOK_invalidate_num q
  | text s =>
    simp only [toNumericCell]
    cases h : pdToNumeric s with
    | none => rfl
    | some q => exact ageOK_invalidate_num q

/-- Claim C4: after the age-cleaning step every cell is a number in
`[0, 120]` or missing; coercion failures become missing, out-of-range
numbers are overwritten with missing, in-range numbers are kept. -/
theorem age_clean_spec (cells : List Cell) :
    (ageCleanColumn cells).all ageOK = true
    ∧ (∀ s : String, pdToNumeric s = none →
        invalidateAge (toNumericCell (Cell.text s)) = Cell.missing)
    ∧ (∀ q : ℚ, (q < 0 ∨ 120 < q) → invalidateAge (Cell.num q) = Cell.missing)
    ∧ (∀ q : ℚ, 0 ≤ q → q ≤ 120 →
        invalidateAge (Cell.num q) = Cell.num q) := by
  refine ⟨?_, ?_, ?_, ?_⟩
  · rw [List.all_eq_true]
    intro c hc
    unfold ageCleanColumn at hc
    rw [List.map_map] at hc
    obtain ⟨c0, _, rfl⟩ := List.mem_map.mp hc
    exact ageOK_cell c0
  · intro s hs
    simp [toNumericCell, hs, invalidateAge]
  · intro q hq
    rcases hq with hq | hq <;> simp [invalidateAge, hq]
  · intro q h0 h120
    simp [invalidateAge, not_lt_of_le h0, not_lt_of_le h120]

/-- Witness for C4 at concrete inputs: an unparseable age, an out-of-range
age, and a kept age. -/
theorem age_clean_spec_witness :
    invalidateAge (toNumericCell (Cell.text "abc")) = Cell.missing
    ∧ invalidateAge (Cell.num 150) = Cell.missing
    ∧ invalidateAge (Cell.num 45) = Cell.num 45 :=
  ⟨(age_clean_spec []).2.1 "abc" (by decide),
   (age_clean_spec []).2.2.1 150 (Or.inr (by norm_num)),
   (age_clean_spec []).2.2.2 45 (by norm_num) (by norm_num)⟩

theorem bool_or_ite {α : Type} (p q : Prop) [Decidable p] [Decidable q]
    (x y : α) :
    (if (decide p || decide q) = true then x else y) =
      if p ∨ q then x else y := by
  by_cases hp : p
  · simp [hp]
  · by_cases hq : q <;> simp [hp, hq]

theorem clean_phone_eval (c : Cell) (h : c ≠ Cell.missing) :
    clean_phone c =
      if digitCountStr (cellStr c) < 10 ∨ 15 < digitCountStr (cellStr c)
      then Cell.missing
      else Cell.text (String.mk ((cellStr c).data.filter Char.isDigit)) := by
  cases c with
  | missing => exact absurd rfl h
  | num q => simp only [clean_phone]; rw [bool_or_ite]; rfl
  | text s => simp only [clean_phone]; rw [bool_or_ite]; rfl
  | date d => simp only [clean_phone]; rw [bool_or_ite]; rfl

theorem phone_shape (l : List Char) :
    phoneDigitOK
      (if (l.filter Char.isDigit).length < 10 ∨
          15 < (l.filter Char.isDigit).length then Cell.missing
       else Cell.text (String.mk (l.filter Char.isDigit))) = true := by
  by_cases h : (l.filter Char.isDigit).length < 10 ∨
      15 < (l.filter Char.isDigit).length
  · simp [h, phoneDigitOK]
  · push_neg at h
    rw [if_neg (by push_neg; exact h)]
    show ((String.mk (l.filter Char.isDigit)).data.all Char.isDigit &&
      (10 ≤ (String.mk (l.filter Char.isDigit)).data.length &&
        (String.mk (l.filter Char.isDigit)).data.length ≤ 15)) = true
    have hall : (l.filter Char.isDigit).all Char.isDigit = true :=
      List.all_eq_true.mpr (fun c hc => (List.mem_filter.mp hc).2)
    show ((l.filter Char.isDigit).all Char.isDigit &&
      (10 ≤ (l.filter Char.isDigit).length &&
        (l.filter Char.isDigit).length ≤ 15)) = true
    simp only [hall, Bool.true_and, Bool.and_eq_true, decide_eq_true_eq]
    exact ⟨h.1, h.2⟩

/-- Claim C3 (amended to the phone-cleaning step): every output of
`clean_phone` is missing or a pure digit string of length in `[10, 15]`;
missing input stays missing; a digit count outside `[10, 15]` maps to
missing; a digit count inside keeps exactly the digit string (leading
zeros preserved). -/
theorem clean_phone_spec (c : Cell) :
    phoneDigitOK (clean_phone c) = true
    ∧ clean_phone Cell.missing = Cell.missing
    ∧ (∀ s : String, (digitCountStr s < 10 ∨ 15 < digitCountStr s) →
        clean_phone (Cell.text s) = Cell.missing)
    ∧ (∀ s : String, 10 ≤ digitCountStr s → digitCountStr s ≤ 15 →
        clean_phone (Cell.text s) =
          Cell.text (String.mk (s.data.filter Char.isDigit))) := by
  refine ⟨?_, rfl, ?_, ?_⟩
  · cases hc : c with
    | missing => rfl
    | num q => rw [clean_phone_eval _ (by simp)]; exact phone_shape _
    | text s => rw [clean_phone_eval _ (by simp)]; exact phone_shape _
    | date d => rw [clean_phone_eval _ (by simp)]; exact phone_shape _
  · intro s hs
    rw [clean_phone_eval _ (by simp)]
    exact if_pos hs
  · intro s h10 h15
    rw [clean_phone_eval _ (by simp)]
    rw [if_neg (by push_neg; exact ⟨h10, h15⟩)]
    rfl

/-- Witness for C3's amended theorem: a too-short phone and the spec's
worked example `"(555) 123-4567 ext 2" → "55512345672"`. -/
theorem clean_phone_spec_witness :
    clean_phone (Cell.text "123") = Cell.missing
    ∧ clean_phone (Cell.text "(555) 123-4567 ext 2") =
        Cell.text "55512345672" := by
  constructor
  · exact (clean_phone_spec Cell.missing).2.2.1 "123" (Or.inl (by decide))
  · rw [(clean_phone_spec Cell.missing).2.2.2 "(555) 123-4567 ext 2"
      (by decide) (by decide)]
    decide

section
attribute [local semireducible] Rat.mul Rat.add Rat.sub Rat.inv

/-- Counterexample to claim C3 as stated (about the pipeline's output):
for a phone column holding the valid number `"0123456789"`, the cleaned
table's value is the NUMBER `123456789` — the numeric-text coercion step
converts the committed digit strings, dropping the leading zero and
leaving a non-missing cell that is not a digit string at all. -/
theorem phone_pipeline_cex :
    containsAny ((cleanTable exTablePhone).colName 0) phoneKeywords = true
    ∧ ((cleanTable exTablePhone).getCol 0).getD 0 Cell.missing =
        Cell.num 123456789
    ∧ phoneDigitOK (((cleanTable exTablePhone).getCol 0).getD 0 Cell.missing)
        = false
    ∧ cellNotNA (((cleanTable exTablePhone).getCol 0).getD 0 Cell.missing)
        = true := by
  refine ⟨by decide, by decide, by decide, by decide⟩

end

theorem coerceCommit_iff (cells : List Cell) :
    coerceCommit cells = true ↔
      7 * cells.length <
        10 * (cells.map toNumericCell).countP cellNotNA := by
  unfold coerceCommit
  rw [decide_eq_true_eq]
  rcases Nat.eq_zero_or_pos cells.length with h0 | hpos
  · have hcells : cells = [] := List.length_eq_zero.mp h0
    subst hcells
    simp
    norm_num
  · have hn : (0:ℚ) < (cells.length : ℚ) := by exact_mod_cast hpos
    rw [div_lt_div_iff₀ (by norm_num) hn]
    constructor
    · intro h
      have h2 : 7 * cells.length <
          (cells.map toNumericCell).countP cellNotNA * 10 := by exact_mod_cast h
      omega
    · intro h
      have h2 : 7 * cells.length <
          (cells.map toNumericCell).countP cellNotNA * 10 := by omega
      exact_mod_cast h2

/-- Claim C1, amended: the coercion of a text column is committed — the
column replaced by its numeric coercion with uncoercible cells becoming
missing — if and only if the fraction of successfully-coerced cells among
ALL cells of the column (missing cells included in the denominator)
exceeds 0.70; otherwise the column is left unchanged. -/
theorem convert_numeric_threshold (cells : List Cell) :
    convertNumericColumn cells =
      if 7 * cells.length <
          10 * (cells.map toNumericCell).countP cellNotNA
      then cells.map toNumericCell else cells := by
  unfold convertNumericColumn
  by_cases h : 7 * cells.length <
      10 * (cells.map toNumericCell).countP cellNotNA
  · rw [if_pos ((coerceCommit_iff cells).mpr h), if_pos h]
  · rw [if_neg (fun hc => h ((coerceCommit_iff cells).mp hc)), if_neg h]

section
attribute [local semireducible] Rat.mul Rat.add Rat.sub Rat.inv

/-- Counterexample to claim C1 as stated: on the column
`["1", missing]` the fraction among the originally non-missing cells is
`1/1 > 0.70`, so the claim's rule commits the coercion, but the code's
test is `mean = 1/2 ≤ 0.70` over all cells, so the code leaves the
column unchanged. -/
theorem convert_numeric_threshold_cex :
    convertNumericColumnClaimC1 [Cell.text "1", Cell.missing] ≠
        convertNumericColumn [Cell.text "1", Cell.missing]
    ∧ convertNumericColumn [Cell.text "1", Cell.missing] =
        [Cell.text "1", Cell.missing]
    ∧ convertNumericColumnClaimC1 [Cell.text "1", Cell.missing] =
        [Cell.num 1, Cell.missing] := by
  refine ⟨by decide, by decide, by decide⟩

end

theorem zip_mask_left (f : Cell → Cell → Bool) :
    ∀ (a d : List Cell),
      List.zipWith (fun b x => if b then Cell.missing else x)
        (List.zipWith (fun dv av => f dv av) d a) a =
      List.zipWith (fun x y => if f y x then Cell.missing else x) a d := by
  intro a
  induction a with
  | nil => intro d; cases d <;> rfl
  | cons x xs ih =>
    intro d
    cases d with
    | nil => rfl
    | cons y ys => simp only [List.zipWith]; rw [ih]

theorem zip_mask_right (f : Cell → Cell → Bool) :
    ∀ (a d : List Cell),
      List.zipWith (fun b x => if b then Cell.missing else x)
        (List.zipWith (fun dv av => f dv av) d a) d =
      List.zipWith (fun x y => if f y x then Cell.missing else y) a d := by
  intro a
  induction a with
  | nil => intro d; cases d <;> rfl
  | cons x xs ih =>
    intro d
    cases d with
    | nil => rfl
    | cons y ys => simp only [List.zipWith]; rw [ih]

/-- Claim C5: the cross-field rule nulls BOTH fields of exactly the rows
whose parsed discharge date strictly precedes the parsed admission date,
and leaves every other row's pair unchanged — in particular the comparison
is true only when both cells are parsed timestamps, so rows with a parse
failure (or missing) on either side are untouched by this rule. -/
theorem discharge_check_spec (a d : List Cell) :
    (dischargeCheck a d).1 =
      List.zipWith (fun x y => if ltCell y x then Cell.missing else x) a d
    ∧ (dischargeCheck a d).2 =
      List.zipWith (fun x y => if ltCell y x then Cell.missing else y) a d
    ∧ (∀ xa yd : Cell, ltCell yd xa = true ↔
        ∃ ia id : ℤ, xa = Cell.date ia ∧ yd = Cell.date id ∧ id < ia) := by
  refine ⟨zip_mask_left ltCell a d, zip_mask_right ltCell a d, ?_⟩
  intro xa yd
  cases xa <;> cases yd <;> simp [ltCell]

theorem dropDupGo_eq_spec :
    ∀ (rs : List Row) (seen pre : List Row),
      (∀ x : Row, x ∈ seen ↔ x ∈ pre) →
      dropDupGo seen rs = dedupSpecAux pre rs := by
  intro rs
  induction rs with
  | nil => intro seen pre _; rfl
  | cons r rs ih =>
    intro seen pre hinv
    by_cases hr : r ∈ seen
    · rw [dropDupGo, dedupSpecAux, if_pos hr, if_pos ((hinv r).mp hr)]
      apply ih
      intro x
      constructor
      · intro hx
        exact List.mem_append_left _ ((hinv x).mp hx)
      · intro hx
        rcases List.mem_append.mp hx with hx | hx
        · exact (hinv x).mpr hx
        · rw [List.mem_singleton.mp hx]; exact hr
    · rw [dropDupGo, dedupSpecAux, if_neg hr,
        if_neg (fun hp => hr ((hinv r).mpr hp))]
      congr 1
      apply ih
      intro x
      constructor
      · intro hx
        rcases List.mem_cons.mp hx with hx | hx
        · rw [hx]; exact List.mem_append_right _ (List.mem_singleton.mpr rfl)
        · exact List.mem_append_left _ ((hinv x).mp hx)
      · intro hx
        rcases List.mem_append.mp hx with hx | hx
        · exact List.mem_cons_of_mem _ ((hinv x).mpr hx)
        · rw [List.mem_singleton.mp hx]; exact List.mem_cons_self _ _

theorem dropDupGo_sublist :
    ∀ (rs seen : List Row), (dropDupGo seen rs).Sublist rs := by
  intro rs
  induction rs with
  | nil => intro seen; exact List.Sublist.refl _
  | cons r rs ih =>
    intro seen
    rw [dropDupGo]
    by_cases hr : r ∈ seen
    · rw [if_pos hr]
      exact (ih seen).cons r
    · rw [if_neg hr]
      exact (ih (r :: seen)).cons₂ r

theorem dropDupGo_nodup :
    ∀ (rs seen : List Row),
      (dropDupGo seen rs).Nodup ∧
        ∀ x ∈ dropDupGo seen rs, x ∉ seen := by
  intro rs
  induction rs with
  | nil => intro seen; exact ⟨List.nodup_nil, by intro x hx; cases hx⟩
  | cons r rs ih =>
    intro seen
    rw [dropDupGo]
    by_cases hr : r ∈ seen
    · rw [if_pos hr]; exact ih seen
    · rw [if_neg hr]
      obtain ⟨hnd, hnotin⟩ := ih (r :: seen)
      refine ⟨List.nodup_cons.mpr ⟨?_, hnd⟩, ?_⟩
      · intro hmem
        exact hnotin r hmem (List.mem_cons_self _ _)
      · intro x hx
        rcases List.mem_cons.mp hx with hx | hx
        · rw [hx]; exact hr
        · intro hxs
          exact hnotin x hx (List.mem_cons_of_mem _ hxs)

/-- Claim C6: deduplication keeps exactly the rows with no cell-wise
identical earlier row (`dedupSpecAux` scans with the list of all earlier
rows, keeping first occurrences), the output has no duplicate rows, and it
is a sublist of the input (surviving rows keep their original relative
order; the list result is contiguously indexed from zero by
construction). -/
theorem drop_duplicates_spec (rows : List Row) :
    dropDuplicates rows = dedupSpecAux [] rows
    ∧ (dropDuplicates rows).Nodup
    ∧ (dropDuplicates rows).Sublist rows :=
  ⟨dropDupGo_eq_spec rows [] [] (fun x => by simp),
   (dropDupGo_nodup rows []).1,
   dropDupGo_sublist rows []⟩

theorem sortQ_length (xs : List ℚ) : (sortQ xs).length = xs.length :=
  (List.perm_insertionSort _ xs).length_eq

theorem median_isSome {xs : List ℚ} (h : xs ≠ []) :
    ∃ m : ℚ, median xs = some m := by
  unfold median quantile
  have hlen : (sortQ xs).length ≠ 0 := by
    rw [sortQ_length]
    exact fun h0 => h (List.length_eq_zero.mp h0)
  rw [if_neg hlen]
  exact ⟨_, rfl⟩

theorem missingCount_fillNA (v : Cell) (hv : isMissing v = false)
    (s : List Cell) : missingCount (fillNA v s) = 0 := by
  unfold missingCount fillNA
  rw [List.countP_eq_zero]
  intro c hc
  obtain ⟨c0, _, rfl⟩ := List.mem_map.mp hc
  by_cases h0 : isMissing c0 = true
  · rw [if_pos h0]; simp [hv]
  · rw [if_neg h0]; simpa using h0

/-- Claim C2, amended to the columns the imputation step actually touches:
a numeric column with at least one non-missing value ends with zero
missing cells (filled with its median), a text column always ends with
zero missing cells (filled with `"unknown"`), and a temporal
(`datetime64`) column is not imputed at all. -/
theorem impute_fills (cells : List Cell) :
    (numsOf cells ≠ [] →
      missingCount (imputeColByType ColType.numeric cells) = 0)
    ∧ missingCount (imputeColByType ColType.text cells) = 0
    ∧ imputeColByType ColType.temporal cells = cells := by
  refine ⟨?_, ?_, rfl⟩
  · intro hne
    obtain ⟨m, hm⟩ := median_isSome hne
    show missingCount (imputeNumericCol cells) = 0
    unfold imputeNumericCol
    rw [hm]
    exact missingCount_fillNA (Cell.num m) rfl cells
  · exact missingCount_fillNA (Cell.text "unknown") rfl cells

section
attribute [local semireducible] Rat.mul Rat.add Rat.sub Rat.inv

/-- Witness for C2's amended theorem at a concrete numeric column with a
missing cell and one non-missing value. -/
theorem impute_fills_witness :
    missingCount (imputeColByType ColType.numeric
      [Cell.num 1, Cell.missing]) = 0
    ∧ missingCount (imputeColByType ColType.text
      [Cell.text "x", Cell.missing]) = 0 :=
  ⟨(impute_fills [Cell.num 1, Cell.missing]).1 (by decide),
   (impute_fills [Cell.text "x", Cell.missing]).2.1⟩

/-- Counterexample to claim C2 as stated: in a table whose single column
`visit_date` has two non-missing values (one parseable date, one
unparseable string), the cleaned table still has a missing cell — the
column is `datetime64` after date parsing, and the imputation loops fill
only `int64`/`float64` and `string`/`object` columns, never `datetime64`
ones. -/
theorem impute_pipeline_cex :
    exTableDates.names.length = 1
    ∧ Table.colNonMissing exTableDates 0 = 2
    ∧ (cleanTable exTableDates).colType 0 = ColType.temporal
    ∧ Table.colMissing (cleanTable exTableDates) 0 = 1 := by
  refine ⟨by decide, by decide, by decide, by decide⟩

end

theorem getD_set_ne {α : Type} :
    ∀ (l : List α) (i j : ℕ) (v d : α), i ≠ j →
      (l.set i v).getD j d = l.getD j d := by
  intro l
  induction l with
  | nil => intro i j v d _; rfl
  | cons a t ih =>
    intro i j v d hij
    cases i with
    | zero =>
      cases j with
      | zero => exact absurd rfl hij
      | succ j => rfl
    | succ i =>
      cases j with
      | zero => rfl
      | succ j => exact ih i j v d (fun h => hij (by rw [h]))

theorem getD_set_self {α : Type} :
    ∀ (l : List α) (i : ℕ) (v d : α), i < l.length →
      (l.set i v).getD i d = v := by
  intro l
  induction l with
  | nil => intro i v d h; cases h
  | cons a t ih =>
    intro i v d h
    cases i with
    | zero => rfl
    | succ i => exact ih i v d (Nat.lt_of_succ_lt_succ h)

theorem getD_append_lt {α : Type} :
    ∀ (l l' : List α) (i : ℕ) (d : α), i < l.length →
      (l ++ l').getD i d = l.getD i d := by
  intro l
  induction l with
  | nil => intro l' i d h; cases h
  | cons a t ih =>
    intro l' i d h
    cases i with
    | zero => rfl
    | succ i => exact ih l' i d (Nat.lt_of_succ_lt_succ h)

theorem getD_append_length {α : Type} :
    ∀ (l : List α) (x d : α), (l ++ [x]).getD l.length d = x := by
  intro l
  induction l with
  | nil => intro x d; rfl
  | cons a t ih => intro x d; exact ih x d

theorem foldHeap_getD_ne :
    ∀ (fs : List (Table → Table)) (hh : Heap) (j r : ℕ), r ≠ j →
      (fs.foldl (fun a f => a.set j (f (a.getD j default))) hh).getD r default
        = hh.getD r default := by
  intro fs
  induction fs with
  | nil => intro hh j r _; rfl
  | cons f fs ih =>
    intro hh j r hrj
    rw [List.foldl_cons, ih _ j r hrj, getD_set_ne hh j r _ _
      (fun h => hrj h.symm)]

theorem foldHeap_getD_self :
    ∀ (fs : List (Table → Table)) (hh : Heap) (j : ℕ), j < hh.length →
      (fs.foldl (fun a f => a.set j (f (a.getD j default))) hh).getD j default
        = fs.foldl (fun a f => f a) (hh.getD j default) := by
  intro fs
  induction fs with
  | nil => intro hh j _; rfl
  | cons f fs ih =>
    intro hh j hj
    rw [List.foldl_cons, List.foldl_cons,
      ih _ j (by rw [List.length_set]; exact hj),
      getD_set_self hh j _ _ hj]

theorem cleanHeap_fst (h : Heap) (r : ℕ) :
    (cleanHeap h r).1 = pipelineSteps.foldl
      (fun hh f => hh.set h.length (f (hh.getD h.length default)))
      (h ++ [h.getD r default]) := rfl

theorem cleanHeap_snd (h : Heap) (r : ℕ) : (cleanHeap h r).2 = h.length := rfl

/-- Claim C9: `clean_hospital_records` does not mutate its argument.  In
the heap model the body allocates a fresh frame holding a copy of the
argument (`df = df_raw.copy()`) and every statement writes only that fresh
frame, so the caller's frame still holds its original value after the call
— and the fresh frame holds exactly the pure pipeline's result. -/
theorem clean_no_mutation (h : Heap) (r : ℕ) (hr : r < h.length) :
    ((cleanHeap h r).1).getD r default = h.getD r default
    ∧ ((cleanHeap h r).1).getD (cleanHeap h r).2 default =
        cleanTable (h.getD r default) := by
  constructor
  · rw [cleanHeap_fst,
      foldHeap_getD_ne pipelineSteps _ h.length r (Nat.ne_of_lt hr)]
    exact getD_append_lt h _ r default hr
  · rw [cleanHeap_fst, cleanHeap_snd,
      foldHeap_getD_self pipelineSteps _ h.length
        (by rw [List.length_append]; simp),
      getD_append_length]
    rfl

/-- Witness for C9 on a concrete one-frame heap. -/
theorem clean_no_mutation_witness :
    ((cleanHeap [exTableDates] 0).1).getD 0 default = exTableDates :=
  ((clean_no_mutation [exTableDates] 0 (by norm_num)).1).trans rfl

theorem mem_missingReportMain {t : Table} {e : MissEntry}
    (he : e ∈ missingReportMain t) :
    e.pct = (ratDiv (e.mcount : ℚ) (t.rows.length : ℚ)).map
      (fun x => x * 100) := by
  have he2 : e ∈ missingEntriesMain t :=
    (List.perm_insertionSort _ _).mem_iff.mp he
  obtain ⟨j, _, rfl⟩ := List.mem_map.mp he2
  rfl

theorem mem_missing_report {t : Table} {e : MissEntry}
    (he : e ∈ missing_report t) :
    e.pct = (ratDiv (e.mcount : ℚ) (t.rows.length : ℚ)).map
      (fun x => round2 (x * 100)) := by
  have he2 : e ∈ missingEntries t :=
    (List.perm_insertionSort _ _).mem_iff.mp he
  obtain ⟨j, _, rfl⟩ := List.mem_map.mp he2
  rfl

/-- Claim C10: both `missing_report` variants divide the per-column
missing count by the row count with no zero guard: on a non-empty table
every report row's percentage is exactly `count / rows × 100` (rounded to
two decimals in the `src/cleaning.py` variant), while on a zero-row table
the percentage is the unguarded quotient `0/0` — the undefined (NaN)
value, not `0`. -/
theorem missing_report_division (t : Table) :
    (t.rows.length ≠ 0 →
      (∀ e ∈ missingReportMain t,
        e.pct = some ((e.mcount : ℚ) / (t.rows.length : ℚ) * 100))
      ∧ (∀ e ∈ missing_report t,
        e.pct = some (round2 ((e.mcount : ℚ) / (t.rows.length : ℚ) * 100))))
    ∧ (t.rows.length = 0 →
      (∀ e ∈ missingReportMain t, e.pct = none)
      ∧ (∀ e ∈ missing_report t, e.pct = none)) := by
  constructor
  · intro hne
    have hq : ((t.rows.length : ℚ)) ≠ 0 := Nat.cast_ne_zero.mpr hne
    constructor
    · intro e he
      rw [mem_missingReportMain he]
      unfold ratDiv
      rw [if_neg hq]
      rfl
    · intro e he
      rw [mem_missing_report he]
      unfold ratDiv
      rw [if_neg hq]
      rfl
  · intro h0
    have hq : ((t.rows.length : ℚ)) = 0 := by exact_mod_cast h0
    constructor <;> intro e he
    · rw [mem_missingReportMain he]
      unfold ratDiv
      rw [if_pos hq]
      rfl
    · rw [mem_missing_report he]
      unfold ratDiv
      rw [if_pos hq]
      rfl

section
attribute [local semireducible] Rat.mul Rat.add Rat.sub Rat.inv

/-- Witness for C10 at a concrete two-row table (percentage `50`) and a
concrete zero-row table (percentage NaN). -/
theorem missing_report_division_witness :
    exEntryOne.pct = some ((exEntryOne.mcount : ℚ) /
      (exTableOne.rows.length : ℚ) * 100)
    ∧ exEntryZero.pct = none :=
  ⟨((missing_report_division exTableOne).1 (by decide)).1 exEntryOne
      (by decide),
   ((missing_report_division exTableZero).2 (by decide)).1 exEntryZero
      (by decide)⟩

end

theorem sortQ_sorted (xs : List ℚ) : (sortQ xs).Sorted (· ≤ ·) :=
  List.sorted_insertionSort _ xs

theorem getD_in_range {α : Type} {s : List α} {i : ℕ} (h : i < s.length)
    (d : α) : s.getD i d = s[i] := by
  rw [List.getD_eq_getElem?_getD, List.getElem?_eq_getElem h]
  rfl

theorem getD_out_range {α : Type} {s : List α} {i : ℕ} (h : s.length ≤ i)
    (d : α) : s.getD i d = d := by
  rw [List.getD_eq_getElem?_getD, List.getElem?_eq_none h]
  rfl

theorem sorted_getD_mono {s : List ℚ} (hs : s.Sorted (· ≤ ·)) {i j : ℕ}
    (hij : i ≤ j) (hj : j < s.length) (d d' : ℚ) :
    s.getD i d ≤ s.getD j d' := by
  have hi : i < s.length := Nat.lt_of_le_of_lt hij hj
  rw [getD_in_range hi, getD_in_range hj]
  have hrel := List.Sorted.rel_get_of_le hs
    (show (⟨i, hi⟩ : Fin s.length) ≤ ⟨j, hj⟩ from hij)
  exact hrel

theorem getD_succ_le {s : List ℚ} (hs : s.Sorted (· ≤ ·)) (k : ℕ) :
    s.getD k 0 ≤ s.getD (k+1) (s.getD k 0) := by
  rcases Nat.lt_or_ge (k+1) s.length with h | h
  · exact sorted_getD_mono hs (Nat.le_succ k) h 0 _
  · rw [getD_out_range h]

theorem interp_le_right {s : List ℚ} (hs : s.Sorted (· ≤ ·)) {k : ℕ}
    {f : ℚ} (hf0 : 0 ≤ f) (hf1 : f < 1) :
    s.getD k 0 + f * (s.getD (k+1) (s.getD k 0) - s.getD k 0) ≤
      s.getD (k+1) (s.getD k 0) := by
  have hAB := getD_succ_le hs k
  nlinarith

theorem interp_mono {s : List ℚ} (hs : s.Sorted (· ≤ ·)) (hne : s ≠ [])
    {h1 h2 : ℚ} (h1nn : 0 ≤ h1) (h12 : h1 ≤ h2)
    (h2le : h2 ≤ ((s.length - 1 : ℕ) : ℚ)) :
    s.getD (⌊h1⌋).toNat 0 + (h1 - ⌊h1⌋) *
        (s.getD ((⌊h1⌋).toNat + 1) (s.getD (⌊h1⌋).toNat 0) -
          s.getD (⌊h1⌋).toNat 0) ≤
      s.getD (⌊h2⌋).toNat 0 + (h2 - ⌊h2⌋) *
        (s.getD ((⌊h2⌋).toNat + 1) (s.getD (⌊h2⌋).toNat 0) -
          s.getD (⌊h2⌋).toNat 0) := by
  have h2nn : 0 ≤ h2 := le_trans h1nn h12
  have hfl1 : (0:ℤ) ≤ ⌊h1⌋ := Int.floor_nonneg.mpr h1nn
  have hfl2 : (0:ℤ) ≤ ⌊h2⌋ := Int.floor_nonneg.mpr h2nn
  have hfr1nn : 0 ≤ h1 - ((⌊h1⌋ : ℤ) : ℚ) := sub_nonneg.mpr (Int.floor_le h1)
  have hfr1lt : h1 - ((⌊h1⌋ : ℤ) : ℚ) < 1 := by
    have := Int.lt_floor_add_one h1; linarith
  have hfr2nn : 0 ≤ h2 - ((⌊h2⌋ : ℤ) : ℚ) := sub_nonneg.mpr (Int.floor_le h2)
  have hnpos : 0 < s.length := List.length_pos.mpr hne
  have hk2le : (⌊h2⌋).toNat ≤ s.length - 1 := by
    have hfl : ⌊h2⌋ ≤ ((s.length - 1 : ℕ) : ℤ) := by
      have h := Int.floor_le_floor h2le
      rwa [Int.floor_natCast] at h
    exact Int.toNat_le.mpr hfl
  have hk2lt : (⌊h2⌋).toNat < s.length :=
    Nat.lt_of_le_of_lt hk2le (Nat.sub_lt hnpos Nat.one_pos)
  have hk12 : (⌊h1⌋).toNat ≤ (⌊h2⌋).toNat :=
    Int.toNat_le_toNat (Int.floor_le_floor h12)
  rcases Nat.eq_or_lt_of_le hk12 with heq | hlt
  · have hfleq : ⌊h1⌋ = ⌊h2⌋ := by
      rw [← Int.toNat_of_nonneg hfl1, ← Int.toNat_of_nonneg hfl2, heq]
    rw [heq, hfleq]
    have hAB := getD_succ_le hs (⌊h2⌋).toNat
    nlinarith
  · have hstep : s.getD ((⌊h1⌋).toNat + 1) (s.getD (⌊h1⌋).toNat 0) ≤
        s.getD (⌊h2⌋).toNat 0 :=
      sorted_getD_mono hs hlt hk2lt _ 0
    calc s.getD (⌊h1⌋).toNat 0 + (h1 - ⌊h1⌋) *
          (s.getD ((⌊h1⌋).toNat + 1) (s.getD (⌊h1⌋).toNat 0) -
            s.getD (⌊h1⌋).toNat 0) ≤
        s.getD ((⌊h1⌋).toNat + 1) (s.getD (⌊h1⌋).toNat 0) :=
          interp_le_right hs hfr1nn hfr1lt
      _ ≤ s.getD (⌊h2⌋).toNat 0 := hstep
      _ ≤ s.getD (⌊h2⌋).toNat 0 + (h2 - ⌊h2⌋) *
          (s.getD ((⌊h2⌋).toNat + 1) (s.getD (⌊h2⌋).toNat 0) -
            s.getD (⌊h2⌋).toNat 0) := by
          have hAB := getD_succ_le hs (⌊h2⌋).toNat
          nlinarith

theorem quantile_le_quantile {xs : List ℚ} {p1 p2 : ℚ} (hp1 : 0 ≤ p1)
    (hp12 : p1 ≤ p2) (hp2 : p2 ≤ 1) {a b : ℚ}
    (ha : quantile xs p1 = some a) (hb : quantile xs p2 = some b) :
    a ≤ b := by
  unfold quantile at ha hb
  by_cases hlen : (sortQ xs).length = 0
  · rw [if_pos hlen] at ha; cases ha
  · rw [if_neg hlen] at ha hb
    injection ha with ha
    injection hb with hb
    subst ha; subst hb
    have hne : sortQ xs ≠ [] := fun h => hlen (by rw [h]; rfl)
    have hcast : (0:ℚ) ≤ (((sortQ xs).length - 1 : ℕ) : ℚ) :=
      Nat.cast_nonneg _
    exact interp_mono (sortQ_sorted xs) hne
      (mul_nonneg hcast hp1)
      (mul_le_mul_of_nonneg_left hp12 hcast)
      (by nlinarith)

/-- Claim C7: `cap_outliers_iqr` returns its input unchanged when there
are fewer than 5 non-missing values or when `IQR = q3 - q1` is zero (with
at least 5 values the quantiles are always defined, so the NaN branch of
the source is covered by the quantile hypotheses); otherwise it maps every
cell through the clip into `[q1 − 1.5·IQR, q3 + 1.5·IQR]`: missing cells
pass through, values already inside the fences are unchanged, and every
numeric cell lands inside the closed interval. -/
theorem cap_outliers_spec (s : List Cell) (q1 q3 : ℚ)
    (h1 : quantile (numsOf s) (1/4) = some q1)
    (h3 : quantile (numsOf s) (3/4) = some q3) :
    ((numsOf s).length < 5 → cap_outliers_iqr s = s)
    ∧ (q3 - q1 = 0 → cap_outliers_iqr s = s)
    ∧ (5 ≤ (numsOf s).length → q3 - q1 ≠ 0 →
        (cap_outliers_iqr s =
          s.map (clipCell (q1 - 3/2 * (q3 - q1)) (q3 + 3/2 * (q3 - q1)))
        ∧ (∀ q : ℚ, q1 - 3/2 * (q3 - q1) ≤ q → q ≤ q3 + 3/2 * (q3 - q1) →
            clipCell (q1 - 3/2 * (q3 - q1)) (q3 + 3/2 * (q3 - q1))
              (Cell.num q) = Cell.num q)
        ∧ clipCell (q1 - 3/2 * (q3 - q1)) (q3 + 3/2 * (q3 - q1))
            Cell.missing = Cell.missing
        ∧ (∀ q : ℚ, ∃ q2 : ℚ,
            clipCell (q1 - 3/2 * (q3 - q1)) (q3 + 3/2 * (q3 - q1))
              (Cell.num q) = Cell.num q2
            ∧ q1 - 3/2 * (q3 - q1) ≤ q2 ∧ q2 ≤ q3 + 3/2 * (q3 - q1)))) := by
  have hq13 : q1 ≤ q3 :=
    quantile_le_quantile (by norm_num) (by norm_num) (by norm_num) h1 h3
  refine ⟨?_, ?_, ?_⟩
  · intro hlt
    unfold cap_outliers_iqr
    rw [if_pos hlt]
  · intro hiqr
    unfold cap_outliers_iqr
    by_cases hlt : (numsOf s).length < 5
    · rw [if_pos hlt]
    · rw [if_neg hlt, h1, h3]
      simp only [if_pos hiqr]
  · intro hge hiqr
    have hiqrpos : 0 < q3 - q1 := lt_of_le_of_ne (by linarith) (Ne.symm hiqr)
    have hlu : q1 - 3/2 * (q3 - q1) ≤ q3 + 3/2 * (q3 - q1) := by linarith
    refine ⟨?_, ?_, rfl, ?_⟩
    · unfold cap_outliers_iqr
      rw [if_neg (Nat.not_lt.mpr hge), h1, h3]
      simp only [if_neg hiqr]
    · intro q hl hu
      simp only [clipCell]
      rw [if_neg (not_lt_of_le hl), if_neg (not_lt_of_le hu)]
    · intro q
      simp only [clipCell]
      by_cases hl : q < q1 - 3/2 * (q3 - q1)
      · exact ⟨q1 - 3/2 * (q3 - q1), by rw [if_pos hl], le_refl _, hlu⟩
      · by_cases hu : q3 + 3/2 * (q3 - q1) < q
        · exact ⟨q3 + 3/2 * (q3 - q1), by rw [if_neg hl, if_pos hu], hlu,
            le_refl _⟩
        · exact ⟨q, by rw [if_neg hl, if_neg hu], le_of_not_lt hl,
            le_of_not_lt hu⟩

section
attribute [local semireducible] Rat.mul Rat.add Rat.sub Rat.inv

/-- Witness for C7: a five-value series with `q1 = 1`, `q3 = 3`
(`IQR = 2`, fences `[-2, 6]`) in which `100` is capped to `6`, and a
one-value series returned unchanged by the small-series guard. -/
theorem cap_outliers_spec_witness :
    cap_outliers_iqr
        [Cell.num 0, Cell.num 1, Cell.num 2, Cell.num 3, Cell.num 100] =
      [Cell.num 0, Cell.num 1, Cell.num 2, Cell.num 3, Cell.num 6]
    ∧ cap_outliers_iqr [Cell.num 7] = [Cell.num 7] := by
  constructor
  · have h := (cap_outliers_spec
      [Cell.num 0, Cell.num 1, Cell.num 2, Cell.num 3, Cell.num 100]
      1 3 (by decide) (by decide)).2.2 (by decide) (by norm_num)
    rw [h.1]
    decide
  · exact (cap_outliers_spec [Cell.num 7] 7 7 (by decide) (by decide)).1
      (by decide)

end
